import Mathlib

/-!
# Shallow embedding of the battle-ship program (src/main.rs)

The Rust program is a terminal battleship game.  We embed its data model and
operations:

* `CellState` mirrors the Rust enum.
* `Board` holds a fixed 10×10 grid (the Rust `[[CellState; BOARD_SIZE]; BOARD_SIZE]`
  array is embedded as a total function on `Fin BOARD_SIZE`) and the `ships`
  vector of coordinates.
* Rust indexing `grid[row][col]` with `usize` indices panics when out of
  bounds; grid reads are therefore embedded as the `Option`-valued
  `Board.cell?`, with `none` standing for the panic, and every operation that
  performs such a read is `Option`-valued.
* The random choices of the program (`rand::thread_rng`) are made explicit
  parameters: `place_ship`'s candidate `(row, col, direction)` and the
  opponent's two `gen_range` samples.
* Console output of `display` is embedded as the list of printed lines.
-/

/-- The Rust `CellState` enum: `Empty`, `Ship`, `Hit`, `Miss`. -/
inductive CellState where
  | Empty : CellState
  | Ship : CellState
  | Hit : CellState
  | Miss : CellState
deriving DecidableEq, Repr

/-- `const BOARD_SIZE: usize = 10;` -/
def BOARD_SIZE : Nat := 10

/-- The fixed-size grid `[[CellState; BOARD_SIZE]; BOARD_SIZE]`. -/
def Grid : Type := Fin BOARD_SIZE → Fin BOARD_SIZE → CellState

instance : DecidableEq Grid := by
  unfold Grid
  infer_instance

/-- The Rust `Board` struct: a grid plus the `ships: Vec<(usize, usize)>`
coordinate collection. -/
structure Board where
  grid : Grid
  ships : List (Nat × Nat)

instance : DecidableEq Board := by
  rintro ⟨g1, s1⟩ ⟨g2, s2⟩
  have hg : Decidable (g1 = g2) := inferInstance
  have hs : Decidable (s1 = s2) := inferInstance
  rcases hg with hg | hg
  · exact .isFalse (by simp [hg])
  · rcases hs with hs | hs
    · exact .isFalse (by simp [hs])
    · exact .isTrue (by simp [hg, hs])

/-- `Board::new()`: all cells `Empty`, no ships. -/
def Board.new : Board :=
  { grid := fun _ _ => CellState.Empty, ships := [] }

/-- Reading `self.grid[row][col]` with `usize` indices: `some` of the cell when
both indices are in bounds, `none` (the Rust index panic) otherwise. -/
def Board.cell? (b : Board) (r c : Nat) : Option CellState :=
  if h : r < BOARD_SIZE ∧ c < BOARD_SIZE then some (b.grid ⟨r, h.1⟩ ⟨c, h.2⟩)
  else none

/-- Writing `grid[r][c] = v`.  In the program every write is dominated by a
successful read of the same cell, so the write itself is total here; it is a
no-op on out-of-bounds indices. -/
def setCell (g : Grid) (r c : Nat) (v : CellState) : Grid :=
  fun i j => if i.val = r ∧ j.val = c then v else g i j

/-- `Board::fire(row, col)`: matches on `self.grid[row][col]` (panic = `none`
when out of bounds), then `Empty ↦ Miss` and `Ship ↦ Hit` update the cell and
return the new state; any other state returns `Miss` without changes.  Returns
the updated board together with the returned `CellState`. -/
def Board.fire (b : Board) (r c : Nat) : Option (Board × CellState) :=
  match b.cell? r c with
  | none => none
  | some CellState.Empty =>
      some ({ b with grid := setCell b.grid r c CellState.Miss }, CellState.Miss)
  | some CellState.Ship =>
      some ({ b with grid := setCell b.grid r c CellState.Hit }, CellState.Hit)
  | some CellState.Hit => some (b, CellState.Miss)
  | some CellState.Miss => some (b, CellState.Miss)

/-- The board after `fire` (the game loop keeps using the mutated board);
identity when `fire` would panic. -/
def fireAt (b : Board) (r c : Nat) : Board :=
  match b.fire r c with
  | some (b', _) => b'
  | none => b

/-- A sequence of `fire` calls. -/
def fireMany (b : Board) (shots : List (Nat × Nat)) : Board :=
  shots.foldl (fun bd p => fireAt bd p.1 p.2) b

/-- The loop body of `can_place_ship`: walk the candidate cells in order; a
non-`Empty` cell short-circuits with `false`, an out-of-bounds grid access is
the Rust panic (`none`). -/
def checkRun (b : Board) : List (Nat × Nat) → Option Bool
  | [] => some true
  | (r, c) :: rest =>
      match b.cell? r c with
      | none => none
      | some s => if s ≠ CellState.Empty then some false else checkRun b rest

/-- The cells covered by a ship of the given size placed at `(row, col)`:
`(row, col + i)` when `direction` (horizontal), `(row + i, col)` otherwise —
exactly the index expressions of `place_ship` / `can_place_ship`. -/
def shipCells (row col size : Nat) (direction : Bool) : List (Nat × Nat) :=
  (List.range size).map (fun i => if direction then (row, col + i) else (row + i, col))

/-- Rust `usize` addition under the default (debug) profile: the sum when it
is representable in 64 bits, `none` for the arithmetic-overflow panic. -/
def usizeAdd (a b : Nat) : Option Nat :=
  if a + b < 2 ^ 64 then some (a + b) else none

/-- `Board::can_place_ship(row, col, size, direction)`: in each orientation a
run-off-the-end check (`col + size > BOARD_SIZE` resp. `row + size >
BOARD_SIZE`, whose `usize` sum can itself panic on overflow) returns
`false`; otherwise each covered cell is read (which can panic on an
out-of-bounds start coordinate, hence `Option`) and must be `Empty`.  The
loop's own index sums (`col + i` resp. `row + i`, `i < size`) are bounded by
the passed guard and cannot overflow. -/
def Board.can_place_ship (b : Board) (row col size : Nat) (direction : Bool) :
    Option Bool :=
  if direction then
    match usizeAdd col size with
    | none => none
    | some s =>
        if s > BOARD_SIZE then some false
        else checkRun b (shipCells row col size direction)
  else
    match usizeAdd row size with
    | none => none
    | some s =>
        if s > BOARD_SIZE then some false
        else checkRun b (shipCells row col size direction)

/-- The success branch of `place_ship`'s loop body: mark each covered cell
`Ship` and push its coordinate onto `ships`, in loop order. -/
def placeCells : Board → List (Nat × Nat) → Board
  | b, [] => b
  | b, (r, c) :: rest =>
      placeCells { grid := setCell b.grid r c CellState.Ship,
                   ships := b.ships ++ [(r, c)] } rest

/-- One iteration of `Board::place_ship`'s rejection-sampling loop at the
sampled candidate `(row, col, direction)`: when `can_place_ship` returns
`true` the ship is placed and the loop breaks (`some`); a `false` answer
re-samples and a panic aborts, both embedded as `none`. -/
def Board.place_ship_try (b : Board) (row col : Nat) (direction : Bool)
    (size : Nat) : Option Board :=
  match b.can_place_ship row col size direction with
  | some true => some (placeCells b (shipCells row col size direction))
  | _ => none

/-- The `.iter().all(...)` loop of `is_game_over`: each ship coordinate's cell
is read (`none` = index panic) and compared with `Hit`, short-circuiting on
the first non-`Hit` cell. -/
def allHit (b : Board) : List (Nat × Nat) → Option Bool
  | [] => some true
  | (r, c) :: rest =>
      match b.cell? r c with
      | none => none
      | some s => if s = CellState.Hit then allHit b rest else some false

/-- `Board::is_game_over()`: all ship coordinates currently `Hit`. -/
def Board.is_game_over (b : Board) : Option Bool :=
  allHit b b.ships

/-- Rust `char::is_whitespace`: the Unicode `White_Space` property.  Input
lines are embedded as `List Char` (Rust iterates over `char`s as well). -/
def rustIsWhitespace (c : Char) : Bool :=
  c.toNat ∈ ([9, 10, 11, 12, 13, 32, 133, 160, 5760, 8192, 8193, 8194, 8195,
    8196, 8197, 8198, 8199, 8200, 8201, 8202, 8232, 8233, 8239, 8287,
    12288] : List Nat)

/-- Rust `str::trim`: strip leading and trailing whitespace. -/
def rustTrim (s : List Char) : List Char :=
  ((s.dropWhile rustIsWhitespace).reverse.dropWhile rustIsWhitespace).reverse

/-- Rust `str::split(',')`: the fields between commas, in order, empty fields
included (so the empty string yields one empty field). -/
def splitComma : List Char → List (List Char)
  | [] => [[]]
  | c :: rest =>
      let r := splitComma rest
      if c = ',' then [] :: r
      else (c :: r.headD []) :: r.tail

/-- ASCII `0`–`9`. -/
def isAsciiDigit (c : Char) : Bool :=
  48 ≤ c.toNat ∧ c.toNat ≤ 57

/-- The value of a string of decimal digits. -/
def digitsToNat (s : List Char) : Nat :=
  s.foldl (fun acc c => 10 * acc + (c.toNat - 48)) 0

/-- Rust `str::parse::<usize>()` (under `.ok()`): an optional leading `+`,
then one or more ASCII digits, rejecting values that overflow the 64-bit
`usize`. -/
def parse_usize (s : List Char) : Option Nat :=
  let t := match s with
           | '+' :: rest => rest
           | _ => s
  if t ≠ [] ∧ t.all isAsciiDigit ∧ digitsToNat t < 2 ^ 64 then
    some (digitsToNat t)
  else none

/-- Rust's `.collect::<Option<Vec<usize>>>()`: all-or-nothing sequencing of
the per-field parse results. -/
def collectOptions : List (Option Nat) → Option (List Nat)
  | [] => some []
  | none :: _ => none
  | some x :: rest => (collectOptions rest).map (fun l => x :: l)

/-- The validation applied by `get_player_input` to one input line:
`input.trim().split(',')`, each field trimmed and parsed as `usize`,
`collect`ed into `Option<Vec<usize>>`; accepted iff exactly two fields, both
values `< BOARD_SIZE`, in which case the pair is returned. -/
def parse_player_input (input : List Char) : Option (Nat × Nat) :=
  match collectOptions
      ((splitComma (rustTrim input)).map (fun f => parse_usize (rustTrim f))) with
  | none => none
  | some coordinates =>
      match coordinates with
      | [a, b] =>
          if a < BOARD_SIZE ∧ b < BOARD_SIZE then some (a, b) else none
      | _ => none

/-- `get_player_input()`'s retry loop over the successive lines read from
stdin: each invalid line prints the error message and re-prompts (moves on to
the next line, no other effect); the first valid line's pair is returned;
`none` if the input stream is exhausted without a valid line. -/
def get_player_input : List (List Char) → Option (Nat × Nat)
  | [] => none
  | line :: rest =>
      match parse_player_input line with
      | some p => some p
      | none => get_player_input rest

/-- `rand`'s `gen_range(lo..hi)`, with the random state made an explicit
`seed`: some value of `[lo, hi)`, here `lo + seed % (hi - lo)`. -/
def gen_range (lo hi seed : Nat) : Nat :=
  lo + seed % (hi - lo)

/-- `generate_opponent_move()`: two independent `gen_range(0..BOARD_SIZE)`
samples, with the two draws of the thread rng as explicit seeds. -/
def generate_opponent_move (seed1 seed2 : Nat) : Nat × Nat :=
  (gen_range 0 BOARD_SIZE seed1, gen_range 0 BOARD_SIZE seed2)

/-- The `colored` crate's `.red()`: wrap in the ANSI red escape sequence. -/
def red (s : String) : String := "\x1b[31m" ++ s ++ "\x1b[0m"

/-- The `colored` crate's `.cyan()`. -/
def cyan (s : String) : String := "\x1b[36m" ++ s ++ "\x1b[0m"

/-- The text printed for one cell by `Board::display`: hollow square for
water, filled square for a ship (both blanked when `hide_ships`), red filled
circle for a hit, cyan mid-dot for a miss, each padded with one space on both
sides as in the Rust format strings. -/
def glyph (hide_ships : Bool) : CellState → String
  | CellState.Empty => if hide_ships then "   " else " □ "
  | CellState.Ship => if hide_ships then "   " else " ■ "
  | CellState.Hit => " " ++ red "●" ++ " "
  | CellState.Miss => " " ++ cyan "·" ++ " "

/-- Rust's `{:2}` formatting of a row index followed by a space
(`print!("{:2} ", i)`): right-aligned in width 2. -/
def fmt2 (i : Nat) : String :=
  (if i < 10 then " " ++ toString i else toString i) ++ " "

/-- The header line of `Board::display`: three spaces then
`print!(" {} ", i)` for each column index. -/
def headerLine : String :=
  "   " ++ String.join ((List.range BOARD_SIZE).map (fun i => " " ++ toString i ++ " "))

/-- One grid line of `Board::display`: the `{:2} `-formatted row index
followed by the glyph of each cell of the row. -/
def rowLine (b : Board) (hide_ships : Bool) (i : Fin BOARD_SIZE) : String :=
  fmt2 i.val ++
    String.join ((List.finRange BOARD_SIZE).map (fun j => glyph hide_ships (b.grid i j)))

/-- `Board::display(hide_ships)`: the printed lines — the column-index header,
then one line per row.  `&self` is read-only: the board is not returned and
not modified. -/
def Board.display (b : Board) (hide_ships : Bool) : List String :=
  headerLine :: (List.finRange BOARD_SIZE).map (fun i => rowLine b hide_ships i)

/-- Boards reachable from `Board::new()` by successful ship placements and
in-bounds `fire` calls — the lifecycle of a board in the game. -/
inductive Reachable : Board → Prop where
  | new : Reachable Board.new
  | place {b b' : Board} {row col size : Nat} {direction : Bool} :
      Reachable b → b.place_ship_try row col direction size = some b' →
      Reachable b'
  | fire {b b' : Board} {r c : Nat} {res : CellState} :
      Reachable b → r < BOARD_SIZE → c < BOARD_SIZE →
      b.fire r c = some (b', res) → Reachable b'

/-- The claim's placement predicate (C2), written from the spec's words:
all `size` consecutive cells starting at `(row, col)` in the given
orientation lie within `[0, BOARD_SIZE)` in both axes and every one of those
cells is currently `Empty`. -/
def specCanPlace (b : Board) (row col size : Nat) (direction : Bool) : Prop :=
  ∀ p ∈ shipCells row col size direction,
    p.1 < BOARD_SIZE ∧ p.2 < BOARD_SIZE ∧ b.cell? p.1 p.2 = some CellState.Empty

instance (b : Board) (row col size : Nat) (direction : Bool) :
    Decidable (specCanPlace b row col size direction) := by
  unfold specCanPlace
  infer_instance

/-! ## Basic lemmas on grid access -/

theorem cell?_fin (b : Board) (i j : Fin BOARD_SIZE) :
    b.cell? i.val j.val = some (b.grid i j) := by
  simp [Board.cell?, i.isLt, j.isLt]

theorem cell?_oob (b : Board) (r c : Nat)
    (h : ¬(r < BOARD_SIZE ∧ c < BOARD_SIZE)) : b.cell? r c = none := by
  simp [Board.cell?, h]

theorem cell?_isSome_iff (b : Board) (r c : Nat) :
    (b.cell? r c).isSome = true ↔ r < BOARD_SIZE ∧ c < BOARD_SIZE := by
  by_cases h : r < BOARD_SIZE ∧ c < BOARD_SIZE
  · simp [Board.cell?, h]
  · simp [Board.cell?, h]

theorem setCell_self (g : Grid) (i j : Fin BOARD_SIZE) (v : CellState) :
    setCell g i.val j.val v i j = v := by
  simp [setCell]

theorem setCell_other (g : Grid) (r c : Nat) (v : CellState)
    (i j : Fin BOARD_SIZE) (h : ¬(i.val = r ∧ j.val = c)) :
    setCell g r c v i j = g i j := by
  simp only [setCell, if_neg h]

theorem cell?_set_other (g : Grid) (ships : List (Nat × Nat)) (r c : Nat)
    (v : CellState) (r' c' : Nat) (h : ¬(r' = r ∧ c' = c)) :
    Board.cell? ⟨setCell g r c v, ships⟩ r' c' = Board.cell? ⟨g, ships⟩ r' c' := by
  by_cases hb : r' < BOARD_SIZE ∧ c' < BOARD_SIZE
  · simp only [Board.cell?, dif_pos hb]
    exact congrArg some (setCell_other g r c v ⟨r', hb.1⟩ ⟨c', hb.2⟩ h)
  · rw [cell?_oob _ _ _ hb, cell?_oob _ _ _ hb]

theorem cell?_set_self (g : Grid) (ships : List (Nat × Nat))
    (i j : Fin BOARD_SIZE) (v : CellState) :
    Board.cell? ⟨setCell g i.val j.val v, ships⟩ i.val j.val = some v := by
  rw [cell?_fin]
  show some (setCell g i.val j.val v i j) = some v
  rw [setCell_self]

/-! ## C1: `fire` case analysis -/

/-- C1: for every board and in-bounds coordinate, `fire` succeeds (returns
some updated board and result), leaves `ships` untouched, and: on an `Empty`
cell it returns `Miss` and sets the cell to `Miss` leaving every other cell
unchanged; on a `Ship` cell it returns `Hit` and sets the cell to `Hit`
leaving every other cell unchanged; on a `Hit` or `Miss` cell it returns
`Miss` and leaves the entire board unchanged. -/
theorem fire_cases_spec (b : Board) (r c : Nat)
    (hr : r < BOARD_SIZE) (hc : c < BOARD_SIZE) :
    ∃ b' res, b.fire r c = some (b', res) ∧ b'.ships = b.ships ∧
      (b.cell? r c = some CellState.Empty →
        res = CellState.Miss ∧ b'.cell? r c = some CellState.Miss ∧
        ∀ r' c' : Nat, ¬(r' = r ∧ c' = c) → b'.cell? r' c' = b.cell? r' c') ∧
      (b.cell? r c = some CellState.Ship →
        res = CellState.Hit ∧ b'.cell? r c = some CellState.Hit ∧
        ∀ r' c' : Nat, ¬(r' = r ∧ c' = c) → b'.cell? r' c' = b.cell? r' c') ∧
      ((b.cell? r c = some CellState.Hit ∨ b.cell? r c = some CellState.Miss) →
        res = CellState.Miss ∧ b' = b) := by
  obtain ⟨g, ships⟩ := b
  set i : Fin BOARD_SIZE := ⟨r, hr⟩
  set j : Fin BOARD_SIZE := ⟨c, hc⟩
  have hcell : Board.cell? ⟨g, ships⟩ r c = some (g i j) := cell?_fin ⟨g, ships⟩ i j
  cases hgij : g i j with
  | Empty =>
      refine ⟨⟨setCell g r c CellState.Miss, ships⟩, CellState.Miss, ?_, rfl, ?_, ?_, ?_⟩
      · simp [Board.fire, hcell, hgij]
      · intro _
        refine ⟨rfl, ?_, ?_⟩
        · have := cell?_set_self g ships i j CellState.Miss
          simpa using this
        · intro r' c' h
          exact cell?_set_other g ships r c CellState.Miss r' c' h
      · intro hs
        rw [hcell, hgij] at hs
        simp at hs
      · intro hs
        rw [hcell, hgij] at hs
        simp at hs
  | Ship =>
      refine ⟨⟨setCell g r c CellState.Hit, ships⟩, CellState.Hit, ?_, rfl, ?_, ?_, ?_⟩
      · simp [Board.fire, hcell, hgij]
      · intro hs
        rw [hcell, hgij] at hs
        simp at hs
      · intro _
        refine ⟨rfl, ?_, ?_⟩
        · have := cell?_set_self g ships i j CellState.Hit
          simpa using this
        · intro r' c' h
          exact cell?_set_other g ships r c CellState.Hit r' c' h
      · intro hs
        rw [hcell, hgij] at hs
        simp at hs
  | Hit =>
      refine ⟨⟨g, ships⟩, CellState.Miss, ?_, rfl, ?_, ?_, ?_⟩
      · simp [Board.fire, hcell, hgij]
      · intro hs
        rw [hcell, hgij] at hs
        simp at hs
      · intro hs
        rw [hcell, hgij] at hs
        simp at hs
      · intro _
        exact ⟨rfl, rfl⟩
  | Miss =>
      refine ⟨⟨g, ships⟩, CellState.Miss, ?_, rfl, ?_, ?_, ?_⟩
      · simp [Board.fire, hcell, hgij]
      · intro hs
        rw [hcell, hgij] at hs
        simp at hs
      · intro hs
        rw [hcell, hgij] at hs
        simp at hs
      · intro _
        exact ⟨rfl, rfl⟩

/-- Witness for C1 at the empty board and coordinate (2, 3). -/
theorem fire_cases_spec_witness :
    ∃ b' res, Board.new.fire 2 3 = some (b', res) ∧ b'.ships = Board.new.ships ∧
      (Board.new.cell? 2 3 = some CellState.Empty →
        res = CellState.Miss ∧ b'.cell? 2 3 = some CellState.Miss ∧
        ∀ r' c' : Nat, ¬(r' = 2 ∧ c' = 3) → b'.cell? r' c' = Board.new.cell? r' c') ∧
      (Board.new.cell? 2 3 = some CellState.Ship →
        res = CellState.Hit ∧ b'.cell? 2 3 = some CellState.Hit ∧
        ∀ r' c' : Nat, ¬(r' = 2 ∧ c' = 3) → b'.cell? r' c' = Board.new.cell? r' c') ∧
      ((Board.new.cell? 2 3 = some CellState.Hit ∨
          Board.new.cell? 2 3 = some CellState.Miss) →
        res = CellState.Miss ∧ b' = Board.new) :=
  fire_cases_spec Board.new 2 3 (by decide) (by decide)

/-! ## C2: `can_place_ship` -/

theorem mem_shipCells_true {row col size : Nat} {p : Nat × Nat} :
    p ∈ shipCells row col size true ↔ ∃ i < size, p = (row, col + i) := by
  simp only [shipCells, if_true, List.mem_map, List.mem_range]
  constructor
  · rintro ⟨i, hi, rfl⟩
    exact ⟨i, hi, rfl⟩
  · rintro ⟨i, hi, rfl⟩
    exact ⟨i, hi, rfl⟩

theorem mem_shipCells_false {row col size : Nat} {p : Nat × Nat} :
    p ∈ shipCells row col size false ↔ ∃ i < size, p = (row + i, col) := by
  simp only [shipCells, if_false, List.mem_map, List.mem_range]
  constructor
  · rintro ⟨i, hi, rfl⟩
    exact ⟨i, hi, rfl⟩
  · rintro ⟨i, hi, rfl⟩
    exact ⟨i, hi, rfl⟩

theorem checkRun_eq_true_iff (b : Board) (cells : List (Nat × Nat)) :
    checkRun b cells = some true ↔
      ∀ p ∈ cells, b.cell? p.1 p.2 = some CellState.Empty := by
  induction cells with
  | nil => simp [checkRun]
  | cons hd tl ih =>
      obtain ⟨r, c⟩ := hd
      rw [checkRun]
      cases hcell : b.cell? r c with
      | none => simp [hcell]
      | some s =>
          by_cases hs : s = CellState.Empty
          · subst hs
            simp [hcell, ih]
          · simp [hcell, hs]

theorem checkRun_isSome (b : Board) (cells : List (Nat × Nat))
    (h : ∀ p ∈ cells, p.1 < BOARD_SIZE ∧ p.2 < BOARD_SIZE) :
    (checkRun b cells).isSome = true := by
  induction cells with
  | nil => simp [checkRun]
  | cons hd tl ih =>
      obtain ⟨r, c⟩ := hd
      rw [checkRun]
      have hb := h (r, c) (by simp)
      cases hcell : b.cell? r c with
      | none =>
          have := (cell?_isSome_iff b r c).2 hb
          rw [hcell] at this
          simp at this
      | some s =>
          by_cases hs : s = CellState.Empty
          · simp only [hs]
            simpa using ih (fun p hp => h p (List.mem_cons_of_mem _ hp))
          · simp [hs]

/-- C2 counterexample: `can_place_ship` is neither total nor false-on-bad
placements — (a) at the out-of-bounds start row 15 with horizontal
orientation the length guard `col + size > BOARD_SIZE` passes and the grid
access `grid[15][0]` panics (`none`) rather than returning `false`; (b) at
`col = 1, size = 2^64 - 1` the guard's `usize` sum itself overflows and
panics rather than returning `false`. -/
theorem can_place_ship_counterexample :
    (Board.new.can_place_ship 15 0 1 true = none ∧
      Board.new.can_place_ship 15 0 1 true ≠ some false) ∧
    (Board.new.can_place_ship 0 1 (2 ^ 64 - 1) true = none ∧
      Board.new.can_place_ship 0 1 (2 ^ 64 - 1) true ≠ some false) := by
  constructor
  · decide
  · constructor
    · have hadd : usizeAdd 1 (2 ^ 64 - 1) = none := by
        unfold usizeAdd
        rw [if_neg (by omega)]
      unfold Board.can_place_ship
      rw [hadd]
      rfl
    · have hadd : usizeAdd 1 (2 ^ 64 - 1) = none := by
        unfold usizeAdd
        rw [if_neg (by omega)]
      unfold Board.can_place_ship
      rw [hadd]
      intro hcontra
      cases hcontra

/-- C2 amended: restricted to in-bounds start coordinates (`row <
BOARD_SIZE` and `col < BOARD_SIZE`, which is what `place_ship` always
samples) and to sizes whose length-guard sum does not overflow the 64-bit
`usize` (`size + BOARD_SIZE ≤ 2 ^ 64`; the fleet's sizes are 2–5),
`can_place_ship` returns without failing, and it returns `true` iff all
`size` covered cells lie within the grid in both axes and are all `Empty`;
in particular it returns `false` for any such placement that would extend
past the grid boundary. -/
theorem can_place_ship_spec (b : Board) (row col size : Nat) (direction : Bool)
    (hrow : row < BOARD_SIZE) (hcol : col < BOARD_SIZE)
    (hsize : size + BOARD_SIZE ≤ 2 ^ 64) :
    (b.can_place_ship row col size direction).isSome = true ∧
      (b.can_place_ship row col size direction = some true ↔
        specCanPlace b row col size direction) := by
  cases direction with
  | true =>
      have hlt : col + size < 2 ^ 64 :=
        lt_of_lt_of_le (by omega : col + size < size + BOARD_SIZE) hsize
      have hadd : usizeAdd col size = some (col + size) := by
        unfold usizeAdd
        rw [if_pos hlt]
      have he : b.can_place_ship row col size true =
          if col + size > BOARD_SIZE then (some false : Option Bool)
          else checkRun b (shipCells row col size true) := by
        unfold Board.can_place_ship
        rw [hadd]
        rfl
      rw [he]
      by_cases hg : col + size > BOARD_SIZE
      · rw [if_pos hg]
        refine ⟨rfl, ?_, ?_⟩
        · intro h
          simp at h
        · intro hspec
          exfalso
          have hsize : 1 ≤ size := by omega
          have hp := hspec (row, col + (size - 1))
            (mem_shipCells_true.2 ⟨size - 1, by omega, rfl⟩)
          have : col + (size - 1) < BOARD_SIZE := hp.2.1
          omega
      · rw [if_neg hg]
        have hin : ∀ p ∈ shipCells row col size true,
            p.1 < BOARD_SIZE ∧ p.2 < BOARD_SIZE := by
          intro p hp
          obtain ⟨i, hi, rfl⟩ := mem_shipCells_true.1 hp
          exact ⟨hrow, by omega⟩
        refine ⟨checkRun_isSome b _ hin, ?_⟩
        rw [checkRun_eq_true_iff]
        unfold specCanPlace
        constructor
        · intro h p hp
          exact ⟨(hin p hp).1, (hin p hp).2, h p hp⟩
        · intro h p hp
          exact (h p hp).2.2
  | false =>
      have hlt : row + size < 2 ^ 64 :=
        lt_of_lt_of_le (by omega : row + size < size + BOARD_SIZE) hsize
      have hadd : usizeAdd row size = some (row + size) := by
        unfold usizeAdd
        rw [if_pos hlt]
      have he : b.can_place_ship row col size false =
          if row + size > BOARD_SIZE then (some false : Option Bool)
          else checkRun b (shipCells row col size false) := by
        unfold Board.can_place_ship
        rw [hadd]
        rfl
      rw [he]
      by_cases hg : row + size > BOARD_SIZE
      · rw [if_pos hg]
        refine ⟨rfl, ?_, ?_⟩
        · intro h
          simp at h
        · intro hspec
          exfalso
          have hsize : 1 ≤ size := by omega
          have hp := hspec (row + (size - 1), col)
            (mem_shipCells_false.2 ⟨size - 1, by omega, rfl⟩)
          have : row + (size - 1) < BOARD_SIZE := hp.1
          omega
      · rw [if_neg hg]
        have hin : ∀ p ∈ shipCells row col size false,
            p.1 < BOARD_SIZE ∧ p.2 < BOARD_SIZE := by
          intro p hp
          obtain ⟨i, hi, rfl⟩ := mem_shipCells_false.1 hp
          exact ⟨by omega, hcol⟩
        refine ⟨checkRun_isSome b _ hin, ?_⟩
        rw [checkRun_eq_true_iff]
        unfold specCanPlace
        constructor
        · intro h p hp
          exact ⟨(hin p hp).1, (hin p hp).2, h p hp⟩
        · intro h p hp
          exact (h p hp).2.2

/-- Witness for C2 at the empty board, placing a size-5 ship horizontally at
the origin. -/
theorem can_place_ship_spec_witness :
    (Board.new.can_place_ship 0 0 5 true).isSome = true ∧
      (Board.new.can_place_ship 0 0 5 true = some true ↔
        specCanPlace Board.new 0 0 5 true) :=
  can_place_ship_spec Board.new 0 0 5 true (by decide) (by decide) (by decide)

/-! ## C3: `is_game_over` -/

theorem allHit_eq_true_iff (b : Board) (ps : List (Nat × Nat)) :
    allHit b ps = some true ↔
      ∀ p ∈ ps, b.cell? p.1 p.2 = some CellState.Hit := by
  induction ps with
  | nil => simp [allHit]
  | cons hd tl ih =>
      obtain ⟨r, c⟩ := hd
      rw [allHit]
      cases hcell : b.cell? r c with
      | none => simp [hcell]
      | some s =>
          by_cases hs : s = CellState.Hit
          · subst hs
            simp [hcell, ih]
          · simp [hcell, hs]

/-- C3: `is_game_over` returns `true` iff every coordinate of the
ship-coordinate collection currently holds a `Hit` cell; it is trivially
`true` when no ships were ever placed; and on the board with a single
size-2 ship at (0,0)–(0,1), after firing (0,0) alone it is `false`, and
after additionally firing (0,1) it is `true`. -/
theorem is_game_over_spec :
    (∀ b : Board, b.is_game_over = some true ↔
        ∀ p ∈ b.ships, b.cell? p.1 p.2 = some CellState.Hit) ∧
    (∀ b : Board, b.ships = [] → b.is_game_over = some true) ∧
    ((Board.new.place_ship_try 0 0 true 2).isSome = true ∧
      ((Board.new.place_ship_try 0 0 true 2).getD Board.new).ships =
        [(0, 0), (0, 1)] ∧
      (fireAt ((Board.new.place_ship_try 0 0 true 2).getD Board.new)
          0 0).is_game_over = some false ∧
      (fireAt (fireAt ((Board.new.place_ship_try 0 0 true 2).getD Board.new)
          0 0) 0 1).is_game_over = some true) := by
  refine ⟨?_, ?_, by decide, by decide, by decide, by decide⟩
  · intro b
    exact allHit_eq_true_iff b b.ships
  · intro b h
    rw [Board.is_game_over, h]
    rfl

/-- Witness for C3's only hypothesis (the empty fleet case) at the fresh
board. -/
theorem is_game_over_spec_witness :
    Board.new.is_game_over = some true :=
  is_game_over_spec.2.1 Board.new rfl

/-! ## C7: monotone, irreversible cell transitions -/

theorem setCell_grid_effect (b : Board) (r c : Nat)
    (hr : r < BOARD_SIZE) (hc : c < BOARD_SIZE) (old new : CellState)
    (hold : b.grid ⟨r, hr⟩ ⟨c, hc⟩ = old) (i j : Fin BOARD_SIZE) :
    setCell b.grid r c new i j = b.grid i j ∨
      (b.grid i j = old ∧ setCell b.grid r c new i j = new) := by
  by_cases hij : i.val = r ∧ j.val = c
  · right
    refine ⟨?_, by simp [setCell, hij]⟩
    have hi : i = ⟨r, hr⟩ := Fin.ext hij.1
    have hj : j = ⟨c, hc⟩ := Fin.ext hij.2
    rw [hi, hj, hold]
  · left
    exact setCell_other _ _ _ _ i j hij

theorem fire_grid_effect (b b' : Board) (r c : Nat) (res : CellState)
    (h : b.fire r c = some (b', res)) (i j : Fin BOARD_SIZE) :
    b'.grid i j = b.grid i j ∨
      (b.grid i j = CellState.Empty ∧ b'.grid i j = CellState.Miss) ∨
      (b.grid i j = CellState.Ship ∧ b'.grid i j = CellState.Hit) := by
  unfold Board.fire at h
  cases hcell : b.cell? r c with
  | none =>
      rw [hcell] at h
      cases h
  | some s =>
      rw [hcell] at h
      have hb : r < BOARD_SIZE ∧ c < BOARD_SIZE := by
        by_contra hor
        rw [cell?_oob b r c hor] at hcell
        cases hcell
      have hval : b.grid ⟨r, hb.1⟩ ⟨c, hb.2⟩ = s := by
        have := cell?_fin b ⟨r, hb.1⟩ ⟨c, hb.2⟩
        rw [hcell] at this
        exact Option.some.inj this.symm
      cases s with
      | Empty =>
          simp only [Option.some.injEq, Prod.mk.injEq] at h
          obtain ⟨hb', _⟩ := h
          rcases setCell_grid_effect b r c hb.1 hb.2 CellState.Empty CellState.Miss
              hval i j with h1 | ⟨h1, h2⟩
          · left
            rw [← hb']
            exact h1
          · right; left
            rw [← hb']
            exact ⟨h1, h2⟩
      | Ship =>
          simp only [Option.some.injEq, Prod.mk.injEq] at h
          obtain ⟨hb', _⟩ := h
          rcases setCell_grid_effect b r c hb.1 hb.2 CellState.Ship CellState.Hit
              hval i j with h1 | ⟨h1, h2⟩
          · left
            rw [← hb']
            exact h1
          · right; right
            rw [← hb']
            exact ⟨h1, h2⟩
      | Hit =>
          simp only [Option.some.injEq, Prod.mk.injEq] at h
          obtain ⟨hb', _⟩ := h
          left
          rw [← hb']
      | Miss =>
          simp only [Option.some.injEq, Prod.mk.injEq] at h
          obtain ⟨hb', _⟩ := h
          left
          rw [← hb']

theorem fireAt_grid (b : Board) (r c : Nat) (i j : Fin BOARD_SIZE) :
    (fireAt b r c).grid i j = b.grid i j ∨
      (b.grid i j = CellState.Empty ∧ (fireAt b r c).grid i j = CellState.Miss) ∨
      (b.grid i j = CellState.Ship ∧ (fireAt b r c).grid i j = CellState.Hit) := by
  unfold fireAt
  cases hf : b.fire r c with
  | none => left; rfl
  | some p => exact fire_grid_effect b p.1 r c p.2 (by rw [hf]) i j

theorem fireAt_preserves_resolved (b : Board) (r c : Nat) (i j : Fin BOARD_SIZE)
    (v : CellState) (hv : v = CellState.Hit ∨ v = CellState.Miss)
    (h : b.grid i j = v) : (fireAt b r c).grid i j = v := by
  rcases fireAt_grid b r c i j with h1 | ⟨h1, _⟩ | ⟨h1, _⟩
  · rw [h1, h]
  · rw [h] at h1
    rcases hv with rfl | rfl <;> cases h1
  · rw [h] at h1
    rcases hv with rfl | rfl <;> cases h1

theorem fireMany_preserves_resolved (shots : List (Nat × Nat)) (b : Board)
    (i j : Fin BOARD_SIZE) (v : CellState)
    (hv : v = CellState.Hit ∨ v = CellState.Miss)
    (h : b.grid i j = v) : (fireMany b shots).grid i j = v := by
  induction shots generalizing b with
  | nil => exact h
  | cons hd tl ih =>
      exact ih (fireAt b hd.1 hd.2) (fireAt_preserves_resolved b hd.1 hd.2 i j v hv h)

/-- C7: every `fire` step either leaves a cell unchanged, or moves it
`Empty → Miss`, or moves it `Ship → Hit`; consequently a `Hit` or `Miss`
cell keeps its state across any further sequence of `fire` steps. -/
theorem fire_monotonic_spec :
    (∀ (b : Board) (r c : Nat) (i j : Fin BOARD_SIZE),
      (fireAt b r c).grid i j = b.grid i j ∨
        (b.grid i j = CellState.Empty ∧
          (fireAt b r c).grid i j = CellState.Miss) ∨
        (b.grid i j = CellState.Ship ∧
          (fireAt b r c).grid i j = CellState.Hit)) ∧
    (∀ (b : Board) (shots : List (Nat × Nat)) (i j : Fin BOARD_SIZE),
      (b.grid i j = CellState.Hit →
        (fireMany b shots).grid i j = CellState.Hit) ∧
      (b.grid i j = CellState.Miss →
        (fireMany b shots).grid i j = CellState.Miss)) := by
  refine ⟨fireAt_grid, ?_⟩
  intro b shots i j
  exact ⟨fireMany_preserves_resolved shots b i j CellState.Hit (Or.inl rfl),
    fireMany_preserves_resolved shots b i j CellState.Miss (Or.inr rfl)⟩

/-- A concrete board for witnesses: a `Hit` at (0,0), a `Miss` at (1,1),
everything else `Empty`; (0,0) is recorded as a ship cell. -/
def demoHitBoard : Board :=
  { grid := fun i j =>
      if i.val = 0 ∧ j.val = 0 then CellState.Hit
      else if i.val = 1 ∧ j.val = 1 then CellState.Miss
      else CellState.Empty,
    ships := [(0, 0)] }

/-- Witness for C7: the resolved cells of `demoHitBoard` survive a concrete
volley of shots. -/
theorem fire_monotonic_spec_witness :
    (fireMany demoHitBoard [(0, 0), (1, 1), (3, 4)]).grid
        ⟨0, by decide⟩ ⟨0, by decide⟩ = CellState.Hit ∧
    (fireMany demoHitBoard [(0, 0), (1, 1), (3, 4)]).grid
        ⟨1, by decide⟩ ⟨1, by decide⟩ = CellState.Miss :=
  ⟨(fire_monotonic_spec.2 demoHitBoard [(0, 0), (1, 1), (3, 4)]
      ⟨0, by decide⟩ ⟨0, by decide⟩).1 (by decide),
   (fire_monotonic_spec.2 demoHitBoard [(0, 0), (1, 1), (3, 4)]
      ⟨1, by decide⟩ ⟨1, by decide⟩).2 (by decide)⟩

/-! ## Placement lemmas (C4, C6) -/

theorem fire_ships {b b' : Board} {r c : Nat} {res : CellState}
    (h : b.fire r c = some (b', res)) : b'.ships = b.ships := by
  unfold Board.fire at h
  cases hcell : b.cell? r c with
  | none =>
      rw [hcell] at h
      cases h
  | some s =>
      rw [hcell] at h
      cases s <;> simp only [Option.some.injEq, Prod.mk.injEq] at h <;>
        rw [← h.1]

theorem placeCells_ships (cells : List (Nat × Nat)) (b : Board) :
    (placeCells b cells).ships = b.ships ++ cells := by
  induction cells generalizing b with
  | nil => simp [placeCells]
  | cons hd tl ih =>
      obtain ⟨r, c⟩ := hd
      rw [placeCells, ih]
      simp

theorem placeCells_grid (cells : List (Nat × Nat)) (b : Board)
    (i j : Fin BOARD_SIZE) :
    (placeCells b cells).grid i j =
      if (i.val, j.val) ∈ cells then CellState.Ship else b.grid i j := by
  induction cells generalizing b with
  | nil => simp [placeCells]
  | cons hd tl ih =>
      obtain ⟨r, c⟩ := hd
      rw [placeCells, ih]
      by_cases hmem : (i.val, j.val) ∈ tl
      · simp [hmem]
      · by_cases hij : i.val = r ∧ j.val = c
        · have hcons : (i.val, j.val) ∈ (r, c) :: tl := by
            simp [hij.1, hij.2]
          simp only [hmem, if_false, if_pos hcons]
          simp [setCell, hij.1, hij.2]
        · have hne : (i.val, j.val) ∉ (r, c) :: tl := by
            simp only [List.mem_cons]
            push_neg
            refine ⟨?_, hmem⟩
            intro hpair
            exact hij ⟨congrArg Prod.fst hpair, congrArg Prod.snd hpair⟩
          rw [if_neg hmem, if_neg hne]
          exact setCell_other _ _ _ _ i j hij

theorem place_ship_try_eq_some {b b' : Board} {row col size : Nat}
    {direction : Bool}
    (h : b.place_ship_try row col direction size = some b') :
    b.can_place_ship row col size direction = some true ∧
      b' = placeCells b (shipCells row col size direction) := by
  unfold Board.place_ship_try at h
  cases hc : b.can_place_ship row col size direction with
  | none =>
      rw [hc] at h
      cases h
  | some v =>
      cases v with
      | false =>
          rw [hc] at h
          cases h
      | true =>
          rw [hc] at h
          exact ⟨rfl, (Option.some.inj h).symm⟩

theorem can_place_ship_empty {b : Board} {row col size : Nat} {direction : Bool}
    (h : b.can_place_ship row col size direction = some true) :
    ∀ p ∈ shipCells row col size direction,
      b.cell? p.1 p.2 = some CellState.Empty := by
  cases direction with
  | true =>
      cases hadd : usizeAdd col size with
      | none =>
          have he : b.can_place_ship row col size true = none := by
            unfold Board.can_place_ship
            rw [hadd]
            rfl
          rw [he] at h
          cases h
      | some s =>
          have he : b.can_place_ship row col size true =
              if s > BOARD_SIZE then (some false : Option Bool)
              else checkRun b (shipCells row col size true) := by
            unfold Board.can_place_ship
            rw [hadd]
            rfl
          rw [he] at h
          by_cases hg : s > BOARD_SIZE
          · rw [if_pos hg] at h
            cases h
          · rw [if_neg hg] at h
            exact (checkRun_eq_true_iff b _).1 h
  | false =>
      cases hadd : usizeAdd row size with
      | none =>
          have he : b.can_place_ship row col size false = none := by
            unfold Board.can_place_ship
            rw [hadd]
            rfl
          rw [he] at h
          cases h
      | some s =>
          have he : b.can_place_ship row col size false =
              if s > BOARD_SIZE then (some false : Option Bool)
              else checkRun b (shipCells row col size false) := by
            unfold Board.can_place_ship
            rw [hadd]
            rfl
          rw [he] at h
          by_cases hg : s > BOARD_SIZE
          · rw [if_pos hg] at h
            cases h
          · rw [if_neg hg] at h
            exact (checkRun_eq_true_iff b _).1 h

/-! ## C6: the ship-coordinate collection tracks Ship/Hit cells -/

theorem reachable_ships_iff {b : Board} (hb : Reachable b)
    (i j : Fin BOARD_SIZE) :
    (i.val, j.val) ∈ b.ships ↔
      (b.grid i j = CellState.Ship ∨ b.grid i j = CellState.Hit) := by
  induction hb with
  | new => simp [Board.new]
  | place hr hp ih =>
      obtain ⟨hcp, rfl⟩ := place_ship_try_eq_some hp
      rename_i b row col size direction
      rw [placeCells_ships, placeCells_grid]
      by_cases hmem : (i.val, j.val) ∈ shipCells row col size direction
      · simp [hmem]
      · rw [if_neg hmem]
        simp only [List.mem_append]
        constructor
        · rintro (h | h)
          · exact ih.mp h
          · exact absurd h hmem
        · intro h
          exact Or.inl (ih.mpr h)
  | fire hr hrlt hclt hf ih =>
      rename_i b b' r c res
      rw [fire_ships hf]
      rcases fire_grid_effect b b' r c res hf i j with h1 | ⟨h1, h2⟩ | ⟨h1, h2⟩
      · rw [h1]
        exact ih
      · have hno : (i.val, j.val) ∉ b.ships := by
          intro hm
          rcases ih.mp hm with h' | h' <;> rw [h1] at h' <;> cases h'
        rw [h2]
        constructor
        · intro hm
          exact absurd hm hno
        · rintro (h' | h') <;> cases h'
      · have hmem : (i.val, j.val) ∈ b.ships := ih.mpr (Or.inl h1)
        rw [h2]
        constructor
        · intro _
          exact Or.inr rfl
        · intro _
          exact hmem

/-- C6: in every board reachable from `new` by ship placements and in-bounds
`fire`s, a coordinate is in the ship-coordinate collection iff its cell is
`Ship` or `Hit`; equivalently, coordinates outside the collection are exactly
the `Empty` or `Miss` cells. -/
theorem ships_grid_invariant (b : Board) (hb : Reachable b)
    (i j : Fin BOARD_SIZE) :
    ((i.val, j.val) ∈ b.ships ↔
      (b.grid i j = CellState.Ship ∨ b.grid i j = CellState.Hit)) ∧
    ((i.val, j.val) ∉ b.ships ↔
      (b.grid i j = CellState.Empty ∨ b.grid i j = CellState.Miss)) := by
  have h1 := reachable_ships_iff hb i j
  refine ⟨h1, ?_⟩
  rw [h1]
  cases b.grid i j <;> simp

/-- Witness for C6 at the freshly constructed board and coordinate (0, 0). -/
theorem ships_grid_invariant_witness :
    ((0, 0) ∈ Board.new.ships ↔
      (Board.new.grid ⟨0, by decide⟩ ⟨0, by decide⟩ = CellState.Ship ∨
        Board.new.grid ⟨0, by decide⟩ ⟨0, by decide⟩ = CellState.Hit)) ∧
    ((0, 0) ∉ Board.new.ships ↔
      (Board.new.grid ⟨0, by decide⟩ ⟨0, by decide⟩ = CellState.Empty ∨
        Board.new.grid ⟨0, by decide⟩ ⟨0, by decide⟩ = CellState.Miss)) :=
  ships_grid_invariant Board.new Reachable.new ⟨0, by decide⟩ ⟨0, by decide⟩

/-! ## C4: the fixed fleet after setup -/

theorem cell?_eq_of_lt (b : Board) (r c : Nat)
    (hr : r < BOARD_SIZE) (hc : c < BOARD_SIZE) :
    b.cell? r c = some (b.grid ⟨r, hr⟩ ⟨c, hc⟩) := by
  simp [Board.cell?, hr, hc]

theorem shipCells_true_eq (row col size : Nat) :
    shipCells row col size true =
      (List.range size).map (fun i => (row, col + i)) := by
  simp [shipCells]

theorem shipCells_false_eq (row col size : Nat) :
    shipCells row col size false =
      (List.range size).map (fun i => (row + i, col)) := by
  simp [shipCells]

theorem shipCells_nodup (row col size : Nat) (direction : Bool) :
    (shipCells row col size direction).Nodup := by
  cases direction with
  | true =>
      rw [shipCells_true_eq]
      refine List.Nodup.map ?_ (List.nodup_range size)
      intro a b hab
      have h2 := congrArg Prod.snd hab
      simp only [] at h2
      omega
  | false =>
      rw [shipCells_false_eq]
      refine List.Nodup.map ?_ (List.nodup_range size)
      intro a b hab
      have h2 := congrArg Prod.fst hab
      simp only [] at h2
      omega

theorem shipCells_length (row col size : Nat) (direction : Bool) :
    (shipCells row col size direction).length = size := by
  simp [shipCells]

/-- The setup invariant: the ship-coordinate collection is duplicate-free and
each recorded coordinate is an in-bounds `Ship` cell. -/
def ShipsOk (b : Board) : Prop :=
  b.ships.Nodup ∧ ∀ p ∈ b.ships, p.1 < BOARD_SIZE ∧ p.2 < BOARD_SIZE ∧
    b.cell? p.1 p.2 = some CellState.Ship

theorem place_ship_try_preserves {b b' : Board} {row col size : Nat}
    {direction : Bool}
    (h : b.place_ship_try row col direction size = some b') (hok : ShipsOk b) :
    ShipsOk b' ∧ b'.ships = b.ships ++ shipCells row col size direction := by
  obtain ⟨hcp, rfl⟩ := place_ship_try_eq_some h
  have hempty := can_place_ship_empty hcp
  have hships := placeCells_ships (shipCells row col size direction) b
  have hbounds : ∀ p ∈ shipCells row col size direction,
      p.1 < BOARD_SIZE ∧ p.2 < BOARD_SIZE := by
    intro p hp
    have h1 := hempty p hp
    have hsome : (b.cell? p.1 p.2).isSome = true := by
      rw [h1]
      rfl
    exact (cell?_isSome_iff b p.1 p.2).1 hsome
  have hdisj : ∀ p ∈ shipCells row col size direction, p ∉ b.ships := by
    intro p hp hmem
    have h1 := hempty p hp
    have h2 := (hok.2 p hmem).2.2
    rw [h1] at h2
    exact CellState.noConfusion (Option.some.inj h2)
  refine ⟨⟨?_, ?_⟩, hships⟩
  · rw [hships]
    refine List.Nodup.append hok.1 (shipCells_nodup row col size direction) ?_
    intro p hp hq
    exact hdisj p hq hp
  · intro p hp
    rw [hships] at hp
    rcases List.mem_append.1 hp with hmem | hmem
    · obtain ⟨hb1, hb2, hb3⟩ := hok.2 p hmem
      have hgrid : b.grid ⟨p.1, hb1⟩ ⟨p.2, hb2⟩ = CellState.Ship := by
        have hce := cell?_eq_of_lt b p.1 p.2 hb1 hb2
        rw [hb3] at hce
        exact (Option.some.inj hce).symm
      refine ⟨hb1, hb2, ?_⟩
      have hnotin : (p.1, p.2) ∉ shipCells row col size direction := by
        intro hcmem
        exact hdisj (p.1, p.2) hcmem (by simpa using hmem)
      rw [cell?_eq_of_lt _ _ _ hb1 hb2, placeCells_grid]
      simp [hnotin, hgrid]
    · refine ⟨(hbounds p hmem).1, (hbounds p hmem).2, ?_⟩
      have hcmem : (p.1, p.2) ∈ shipCells row col size direction := by
        simpa using hmem
      rw [cell?_eq_of_lt _ _ _ (hbounds p hmem).1 (hbounds p hmem).2,
        placeCells_grid]
      simp [hcmem]

/-- C4: any board obtained from `new` by successfully placing the fixed fleet
5, 4, 3, 3, 2 has a ship-coordinate collection of exactly 17 distinct
in-bounds coordinates, each holding a `Ship` cell, and the collection is
exactly the concatenation of the five contiguous runs (`shipCells` is the
consecutive horizontal resp. vertical run of each ship), so no two ships
share a cell. -/
theorem fleet_setup_spec
    (r1 c1 r2 c2 r3 c3 r4 c4 r5 c5 : Nat) (d1 d2 d3 d4 d5 : Bool)
    (b1 b2 b3 b4 b5 : Board)
    (h1 : Board.new.place_ship_try r1 c1 d1 5 = some b1)
    (h2 : b1.place_ship_try r2 c2 d2 4 = some b2)
    (h3 : b2.place_ship_try r3 c3 d3 3 = some b3)
    (h4 : b3.place_ship_try r4 c4 d4 3 = some b4)
    (h5 : b4.place_ship_try r5 c5 d5 2 = some b5) :
    b5.ships.length = 17 ∧ b5.ships.Nodup ∧
      (∀ p ∈ b5.ships, p.1 < BOARD_SIZE ∧ p.2 < BOARD_SIZE ∧
        b5.cell? p.1 p.2 = some CellState.Ship) ∧
      b5.ships = shipCells r1 c1 5 d1 ++ shipCells r2 c2 4 d2 ++
        shipCells r3 c3 3 d3 ++ shipCells r4 c4 3 d4 ++ shipCells r5 c5 2 d5 := by
  have hok0 : ShipsOk Board.new := by
    constructor
    · exact List.nodup_nil
    · intro p hp
      cases hp
  obtain ⟨hok1, hs1⟩ := place_ship_try_preserves h1 hok0
  obtain ⟨hok2, hs2⟩ := place_ship_try_preserves h2 hok1
  obtain ⟨hok3, hs3⟩ := place_ship_try_preserves h3 hok2
  obtain ⟨hok4, hs4⟩ := place_ship_try_preserves h4 hok3
  obtain ⟨hok5, hs5⟩ := place_ship_try_preserves h5 hok4
  have hships : b5.ships = shipCells r1 c1 5 d1 ++ shipCells r2 c2 4 d2 ++
      shipCells r3 c3 3 d3 ++ shipCells r4 c4 3 d4 ++ shipCells r5 c5 2 d5 := by
    rw [hs5, hs4, hs3, hs2, hs1]
    show ([] : List (Nat × Nat)) ++ _ ++ _ ++ _ ++ _ ++ _ = _
    simp [List.append_assoc]
  refine ⟨?_, hok5.1, hok5.2, hships⟩
  rw [hships]
  simp [shipCells_length]

/-- The five fleet placements of `main`, at the concrete candidates
row `k`, column 0, horizontal. -/
def setupB1 : Board := (Board.new.place_ship_try 0 0 true 5).getD Board.new

def setupB2 : Board := (setupB1.place_ship_try 1 0 true 4).getD setupB1

def setupB3 : Board := (setupB2.place_ship_try 2 0 true 3).getD setupB2

def setupB4 : Board := (setupB3.place_ship_try 3 0 true 3).getD setupB3

def setupB5 : Board := (setupB4.place_ship_try 4 0 true 2).getD setupB4

/-- Witness for C4 at a concrete successful placement of the full fleet. -/
theorem fleet_setup_spec_witness :
    setupB5.ships.length = 17 ∧ setupB5.ships.Nodup ∧
      (∀ p ∈ setupB5.ships, p.1 < BOARD_SIZE ∧ p.2 < BOARD_SIZE ∧
        setupB5.cell? p.1 p.2 = some CellState.Ship) ∧
      setupB5.ships = shipCells 0 0 5 true ++ shipCells 1 0 4 true ++
        shipCells 2 0 3 true ++ shipCells 3 0 3 true ++ shipCells 4 0 2 true :=
  fleet_setup_spec 0 0 1 0 2 0 3 0 4 0 true true true true true
    setupB1 setupB2 setupB3 setupB4 setupB5
    (by decide) (by decide) (by decide) (by decide) (by decide)

/-! ## C5: the player-move parser -/

theorem collectOptions_eq_some {l : List (Option Nat)} {out : List Nat} :
    collectOptions l = some out ↔ l = out.map some := by
  induction l generalizing out with
  | nil => cases out <;> simp [collectOptions]
  | cons hd tl ih =>
      cases hd with
      | none => cases out <;> simp [collectOptions]
      | some x =>
          rw [collectOptions]
          cases out with
          | nil => simp
          | cons o ot =>
              simp [ih, Option.map_eq_some', eq_comm]
              exact and_comm

theorem map_eq_pair {α β : Type} {f : α → β} {l : List α} {y1 y2 : β}
    (h : l.map f = [y1, y2]) :
    ∃ x1 x2, l = [x1, x2] ∧ f x1 = y1 ∧ f x2 = y2 := by
  cases l with
  | nil => simp at h
  | cons a t =>
      cases t with
      | nil => simp at h
      | cons b t2 =>
          cases t2 with
          | nil =>
              simp only [List.map, List.cons.injEq] at h
              exact ⟨a, b, rfl, h.1, h.2.1⟩
          | cons x3 t3 => simp at h

theorem collectOptions_length {l : List (Option Nat)} {out : List Nat}
    (h : collectOptions l = some out) : out.length = l.length := by
  have := collectOptions_eq_some.1 h
  rw [this]
  simp

theorem parse_player_input_iff (input : List Char) (r c : Nat) :
    parse_player_input input = some (r, c) ↔
      ∃ f1 f2, splitComma (rustTrim input) = [f1, f2] ∧
        parse_usize (rustTrim f1) = some r ∧
        parse_usize (rustTrim f2) = some c ∧
        r < BOARD_SIZE ∧ c < BOARD_SIZE := by
  unfold parse_player_input
  cases hsp : splitComma (rustTrim input) with
  | nil => simp [collectOptions]
  | cons f1 tl =>
      cases tl with
      | nil =>
          cases hp1 : parse_usize (rustTrim f1) with
          | none => simp [collectOptions, hp1]
          | some v1 => simp [collectOptions, hp1]
      | cons f2 tl2 =>
          cases tl2 with
          | nil =>
              cases hp1 : parse_usize (rustTrim f1) with
              | none => simp [collectOptions, hp1]
              | some v1 =>
                  cases hp2 : parse_usize (rustTrim f2) with
                  | none => simp [collectOptions, hp1, hp2]
                  | some v2 =>
                      simp only [List.map_cons, List.map_nil, hp1, hp2,
                        collectOptions, Option.map_some']
                      by_cases hlt : v1 < BOARD_SIZE ∧ v2 < BOARD_SIZE
                      · rw [if_pos hlt]
                        constructor
                        · intro h
                          obtain ⟨ha, hb⟩ := Prod.mk.injEq .. ▸ Option.some.inj h
                          exact ⟨f1, f2, rfl, by rw [hp1, ha],
                            by rw [hp2, hb], ha ▸ hlt.1, hb ▸ hlt.2⟩
                        · rintro ⟨g1, g2, hg, hq1, hq2, _, _⟩
                          obtain ⟨e1, e2⟩ : f1 = g1 ∧ f2 = g2 := by
                            have h1 := (List.cons.injEq .. ▸ hg).1
                            have h2 := (List.cons.injEq .. ▸ (List.cons.injEq .. ▸ hg).2).1
                            exact ⟨h1, h2⟩
                          subst e1
                          subst e2
                          rw [hp1] at hq1
                          rw [hp2] at hq2
                          rw [Option.some.inj hq1, Option.some.inj hq2]
                      · rw [if_neg hlt]
                        constructor
                        · intro h
                          cases h
                        · rintro ⟨g1, g2, hg, hq1, hq2, hr, hc⟩
                          obtain ⟨e1, e2⟩ : f1 = g1 ∧ f2 = g2 := by
                            have h1 := (List.cons.injEq .. ▸ hg).1
                            have h2 := (List.cons.injEq .. ▸ (List.cons.injEq .. ▸ hg).2).1
                            exact ⟨h1, h2⟩
                          subst e1
                          subst e2
                          rw [hp1] at hq1
                          rw [hp2] at hq2
                          exfalso
                          exact hlt ⟨Option.some.inj hq1 ▸ hr, Option.some.inj hq2 ▸ hc⟩
          | cons f3 tl3 =>
              cases hm : collectOptions
                  ((f1 :: f2 :: f3 :: tl3).map (fun f => parse_usize (rustTrim f))) with
              | none => simp [hm]
              | some coords =>
                  have hlen := collectOptions_length hm
                  simp only [List.length_map, List.length_cons] at hlen
                  rcases coords with _ | ⟨o1, _ | ⟨o2, _ | ⟨o3, ot⟩⟩⟩
                  · simp at hlen
                  · simp at hlen
                  · simp at hlen
                  · simp [hm]

/-- C5: a raw input line is accepted exactly when it splits (after trimming)
into two comma-separated fields, each of which (after trimming) parses as a
non-negative integer (`usize`), both strictly below `BOARD_SIZE`, and the
parsed pair is returned; a rejected line makes the loop print the error and
move to the next line with no other state, an accepted line returns
immediately; and the spec's seven concrete examples behave as stated. -/
theorem player_input_spec :
    (∀ (input : List Char) (r c : Nat),
      parse_player_input input = some (r, c) ↔
        ∃ f1 f2, splitComma (rustTrim input) = [f1, f2] ∧
          parse_usize (rustTrim f1) = some r ∧
          parse_usize (rustTrim f2) = some c ∧
          r < BOARD_SIZE ∧ c < BOARD_SIZE) ∧
    (∀ (line : List Char) (rest : List (List Char)),
      parse_player_input line = none →
        get_player_input (line :: rest) = get_player_input rest) ∧
    (∀ (line : List Char) (rest : List (List Char)) (p : Nat × Nat),
      parse_player_input line = some p →
        get_player_input (line :: rest) = some p) ∧
    (parse_player_input "3,4".toList = some (3, 4) ∧
      parse_player_input " 3 , 4 ".toList = some (3, 4) ∧
      parse_player_input "3, 4".toList = some (3, 4) ∧
      parse_player_input "10,0".toList = none ∧
      parse_player_input "a,b".toList = none ∧
      parse_player_input "3".toList = none ∧
      parse_player_input "3,4,5".toList = none) := by
  refine ⟨parse_player_input_iff, ?_, ?_, by decide, by decide, by decide,
    by decide, by decide, by decide, by decide⟩
  · intro line rest h
    simp [get_player_input, h]
  · intro line rest p h
    simp [get_player_input, h]

/-- Witness for C5: an invalid line is skipped with a re-prompt, and the
following valid line is accepted as (3, 4). -/
theorem player_input_spec_witness :
    get_player_input ["a,b".toList, "3,4".toList] = some (3, 4) := by
  rw [player_input_spec.2.1 "a,b".toList ["3,4".toList] (by decide)]
  exact player_input_spec.2.2.1 "3,4".toList [] (3, 4) (by decide)

/-! ## C8: in-bounds firing is a caller-established precondition -/

/-- C8: `fire` itself performs no bounds check — out-of-bounds coordinates
reach the index panic (`none`) — but under the precondition `row <
BOARD_SIZE` and `col < BOARD_SIZE` every grid access succeeds (`fire` never
returns `none`); and both callers establish the precondition: any pair
accepted by the input validation is in bounds, and any opponent move is in
bounds whatever the rng produced. -/
theorem fire_precondition_spec :
    (∀ (b : Board) (r c : Nat), r < BOARD_SIZE → c < BOARD_SIZE →
      (b.fire r c).isSome = true) ∧
    (∀ (b : Board) (r c : Nat), ¬(r < BOARD_SIZE ∧ c < BOARD_SIZE) →
      b.fire r c = none) ∧
    (∀ (input : List Char) (r c : Nat),
      parse_player_input input = some (r, c) →
        r < BOARD_SIZE ∧ c < BOARD_SIZE) ∧
    (∀ (lines : List (List Char)) (r c : Nat),
      get_player_input lines = some (r, c) →
        r < BOARD_SIZE ∧ c < BOARD_SIZE) ∧
    (∀ seed1 seed2 : Nat,
      (generate_opponent_move seed1 seed2).1 < BOARD_SIZE ∧
        (generate_opponent_move seed1 seed2).2 < BOARD_SIZE) := by
  have hparse : ∀ (input : List Char) (r c : Nat),
      parse_player_input input = some (r, c) →
        r < BOARD_SIZE ∧ c < BOARD_SIZE := by
    intro input r c h
    obtain ⟨_, _, _, _, _, hr, hc⟩ := (parse_player_input_iff input r c).1 h
    exact ⟨hr, hc⟩
  refine ⟨?_, ?_, hparse, ?_, ?_⟩
  · intro b r c hr hc
    rw [Board.fire, cell?_eq_of_lt b r c hr hc]
    cases b.grid ⟨r, hr⟩ ⟨c, hc⟩ <;> rfl
  · intro b r c h
    rw [Board.fire, cell?_oob b r c h]
  · intro lines r c h
    induction lines with
    | nil => cases h
    | cons line rest ih =>
        rw [get_player_input] at h
        cases hp : parse_player_input line with
        | none =>
            rw [hp] at h
            exact ih h
        | some p =>
            rw [hp] at h
            obtain rfl := Option.some.inj h
            exact hparse line r c hp
  · intro seed1 seed2
    constructor <;>
    · show 0 + _ % (BOARD_SIZE - 0) < BOARD_SIZE
      rw [Nat.zero_add, Nat.sub_zero]
      exact Nat.mod_lt _ (by decide)

/-- Witness for C8 at concrete boards, coordinates and input lines. -/
theorem fire_precondition_spec_witness :
    (Board.new.fire 0 0).isSome = true ∧
      Board.new.fire 10 0 = none ∧
      (3 < BOARD_SIZE ∧ 4 < BOARD_SIZE) ∧
      (7 < BOARD_SIZE ∧ 9 < BOARD_SIZE) :=
  ⟨fire_precondition_spec.1 Board.new 0 0 (by decide) (by decide),
   fire_precondition_spec.2.1 Board.new 10 0 (by decide),
   fire_precondition_spec.2.2.1 "3,4".toList 3 4 (by decide),
   fire_precondition_spec.2.2.2.1 ["7, 9".toList] 7 9 (by decide)⟩

/-! ## C9: rendering -/

/-- C9: rendering is a pure function of the grid and the hide-ships flag
(`display` takes `&self` and returns only the printed lines, so it cannot
modify the board); the glyphs are exactly hollow square / filled square
(blanked when hiding ships), red filled circle and cyan mid-dot; and the
output is the column-index header followed by one line per row, each being
the row index followed by one glyph per cell. -/
theorem display_spec :
    (∀ (b1 b2 : Board) (hide_ships : Bool), b1.grid = b2.grid →
      b1.display hide_ships = b2.display hide_ships) ∧
    (glyph false CellState.Empty = " □ " ∧ glyph true CellState.Empty = "   " ∧
      glyph false CellState.Ship = " ■ " ∧ glyph true CellState.Ship = "   " ∧
      (∀ h : Bool, glyph h CellState.Hit = " " ++ red "●" ++ " " ∧
        glyph h CellState.Miss = " " ++ cyan "·" ++ " ")) ∧
    (∀ (b : Board) (hide_ships : Bool),
      b.display hide_ships =
        headerLine :: (List.finRange BOARD_SIZE).map
          (fun i => fmt2 i.val ++ String.join ((List.finRange BOARD_SIZE).map
            (fun j => glyph hide_ships (b.grid i j))))) := by
  refine ⟨?_, ⟨rfl, rfl, rfl, rfl, fun h => ⟨rfl, rfl⟩⟩, fun b hide_ships => rfl⟩
  intro b1 b2 hide_ships hgrid
  obtain ⟨g1, s1⟩ := b1
  obtain ⟨g2, s2⟩ := b2
  change g1 = g2 at hgrid
  subst hgrid
  rfl

/-- Witness for C9: two boards with the same grid but different ship
collections render identically. -/
theorem display_spec_witness :
    demoHitBoard.display false =
      ({ demoHitBoard with ships := [] } : Board).display false :=
  display_spec.1 demoHitBoard { demoHitBoard with ships := [] } false rfl

/-! ## C10: the hidden rendering leaks no ship placement -/

/-- C10: if two boards agree on which cells are `Hit` and which are `Miss`
(their `Ship` versus `Empty` cells may differ arbitrarily), then the
hide-ships rendering is identical for both — the opponent view reveals
nothing about unhit ship placement. -/
theorem display_hidden_noleak (b1 b2 : Board)
    (h : ∀ i j : Fin BOARD_SIZE,
      (b1.grid i j = CellState.Hit ↔ b2.grid i j = CellState.Hit) ∧
      (b1.grid i j = CellState.Miss ↔ b2.grid i j = CellState.Miss)) :
    b1.display true = b2.display true := by
  unfold Board.display
  congr 1
  refine List.map_congr_left ?_
  intro i _
  unfold rowLine
  congr 1
  refine congrArg String.join (List.map_congr_left ?_)
  intro j _
  have hh := (h i j).1
  have hm := (h i j).2
  cases hb1 : b1.grid i j <;> cases hb2 : b2.grid i j <;>
    rw [hb1, hb2] at hh hm <;> simp_all [glyph]

/-- A second concrete board: same `Hit` and `Miss` cells as `demoHitBoard`,
but with an additional unhit `Ship` at (5, 5). -/
def demoShipBoard : Board :=
  { grid := fun i j =>
      if i.val = 0 ∧ j.val = 0 then CellState.Hit
      else if i.val = 1 ∧ j.val = 1 then CellState.Miss
      else if i.val = 5 ∧ j.val = 5 then CellState.Ship
      else CellState.Empty,
    ships := [(0, 0), (5, 5)] }

/-- Witness for C10: `demoHitBoard` and `demoShipBoard` differ exactly in an
unhit ship, and render identically when ships are hidden. -/
theorem display_hidden_noleak_witness :
    demoHitBoard.display true = demoShipBoard.display true :=
  display_hidden_noleak demoHitBoard demoShipBoard (by decide)
